import Mathlib

/-!
# NSH decapsulation parser (`capture/parsers/nsh.c`)

A shallow embedding of `nsh_packet_enqueue` and of the small part of its
environment that the function touches: the byte buffer it reads from, the
result codes it returns and the downstream routine
`moloch_packet_run_ethernet_cb` it hands the inner payload to.

Conventions of the embedding

* A C `int` is a Lean `Int`.  The only arithmetic of the function is
  `(data[1] & 0x3f) * 4` and `len - length`; the first is shown to stay within
  `0..252`, the second is evaluated only when `0 ≤ length ≤ len`.
* A `const uint8_t *` is a `BytePtr`: the allocation it points into and an
  offset.  `data[i]` is an `Option`-valued read, `none` standing for a read
  outside of the allocation.
* The function runs over an explicit state `Env`: the state of the external
  framework, the log of the buffer indices read and the log of the calls made
  to the downstream routine.
-/

namespace Nsh

/-! ## Data model -/

/-- A byte, the C type `uint8_t`. -/
abbrev uint8_t := Fin 256

/-- Largest value of a C `int` (32 bit). -/
def INT_MAX : Int := 2147483647

/-- Smallest value of a C `int` (32 bit). -/
def INT_MIN : Int := -2147483648

/-- A `const uint8_t *`: the bytes of the allocation pointed into and the
offset of the pointer from its start. -/
structure BytePtr where
  mem : List uint8_t
  off : Int
deriving DecidableEq

namespace BytePtr

/-- Pointer arithmetic `p + n`. -/
def add (p : BytePtr) (n : Int) : BytePtr :=
  { mem := p.mem, off := p.off + n }

/-- The read `p[i]`; `none` when the index lies outside of the allocation. -/
def read (p : BytePtr) (i : Int) : Option uint8_t :=
  if 0 ≤ p.off + i then p.mem[(p.off + i).toNat]? else none

/-- The allocation physically holds the `len` bytes `p[0] .. p[len-1]`. -/
def valid (p : BytePtr) (len : Int) : Prop :=
  0 ≤ p.off ∧ p.off + len ≤ (p.mem.length : Int)

instance (p : BytePtr) (len : Int) : Decidable (p.valid len) := by
  unfold valid
  exact inferInstance

end BytePtr

/-- Modelled from the spec: the enum `MolochPacketRC` is declared in
`moloch.h`, which is not part of the sources at hand.  The parser names only
`MOLOCH_PACKET_CORRUPT`; every other outcome is "whatever the downstream
dispatcher reports" and is kept as an uninterpreted code. -/
inductive MolochPacketRC where
  | MOLOCH_PACKET_CORRUPT
  | other (code : Nat)
deriving DecidableEq

/-- Modelled from the spec: the protocol identifiers handed to the downstream
routine are macros of `moloch.h` and `net/ethernet.h`, whose numeric values
are not part of the sources at hand.  They are kept as the fixed enumerated
set of five tags, one constructor for each macro name used by the parser. -/
inductive EtherType where
  | ETHERTYPE_IP
  | ETHERTYPE_IPV6
  | MOLOCH_ETHERTYPE_ETHER
  | MOLOCH_ETHERTYPE_NSH
  | MOLOCH_ETHERTYPE_MPLS
deriving DecidableEq

/-- The arguments of one call of `moloch_packet_run_ethernet_cb`. -/
structure CbCall (B P : Type) where
  batch : B
  packet : P
  data : BytePtr
  len : Int
  type : EtherType
  str : String
deriving DecidableEq

/-- The explicit state the parser runs over: `world` is the state owned by the
external framework, `reads` logs the indices of `data` read so far and `calls`
logs the calls of the downstream routine made so far. -/
structure Env (B P σ : Type) where
  world : σ
  reads : List Int
  calls : List (CbCall B P)
deriving DecidableEq

/-- The behaviour of the external downstream routine: from the arguments of a
call and the state of the framework to a result code and a new state. -/
abbrev Dispatcher (B P σ : Type) := CbCall B P → σ → MolochPacketRC × σ

/-! ## Operations -/

section Operations

variable {B P σ : Type}

/-- The read `data[i]` performed by the parser, logged in `reads`. -/
def load (data : BytePtr) (i : Int) (s : Env B P σ) : Option (uint8_t × Env B P σ) :=
  match data.read i with
  | none => none
  | some b => some (b, { s with reads := s.reads ++ [i] })

/-- The external routine `moloch_packet_run_ethernet_cb`: the call is logged
and its outcome is the one of the dispatcher `cb`. -/
def moloch_packet_run_ethernet_cb (cb : Dispatcher B P σ) (batch : B) (packet : P)
    (data : BytePtr) (len : Int) (type : EtherType) (str : String)
    (s : Env B P σ) : MolochPacketRC × Env B P σ :=
  let c : CbCall B P :=
    { batch := batch, packet := packet, data := data, len := len, type := type, str := str }
  let r := cb c s.world
  (r.1, { world := r.2, reads := s.reads, calls := s.calls ++ [c] })

/-- The header length `(data[1] & 0x3f) * 4` computed from byte 1. -/
def nsh_length (b : uint8_t) : Int :=
  ((b.val &&& 0x3f : Nat) : Int) * 4

/-- The function `nsh_packet_enqueue`. -/
def nsh_packet_enqueue (cb : Dispatcher B P σ) (batch : B) (packet : P)
    (data : BytePtr) (len : Int) (s : Env B P σ) : Option (MolochPacketRC × Env B P σ) :=
  if len < 4 then
    some (MolochPacketRC.MOLOCH_PACKET_CORRUPT, s)
  else
    match load data 1 s with
    | none => none
    | some (b1, s1) =>
      let length : Int := nsh_length b1
      if len < length then
        some (MolochPacketRC.MOLOCH_PACKET_CORRUPT, s1)
      else
        match load data 3 s1 with
        | none => none
        | some (b3, s2) =>
          match b3.val with
          | 1 => some (moloch_packet_run_ethernet_cb cb batch packet (data.add length)
                    (len - length) EtherType.ETHERTYPE_IP "NSH" s2)
          | 2 => some (moloch_packet_run_ethernet_cb cb batch packet (data.add length)
                    (len - length) EtherType.ETHERTYPE_IPV6 "NSH" s2)
          | 3 => some (moloch_packet_run_ethernet_cb cb batch packet (data.add length)
                    (len - length) EtherType.MOLOCH_ETHERTYPE_ETHER "NSH" s2)
          | 4 => some (moloch_packet_run_ethernet_cb cb batch packet (data.add length)
                    (len - length) EtherType.MOLOCH_ETHERTYPE_NSH "NSH" s2)
          | 5 => some (moloch_packet_run_ethernet_cb cb batch packet (data.add length)
                    (len - length) EtherType.MOLOCH_ETHERTYPE_MPLS "NSH" s2)
          | _ => some (MolochPacketRC.MOLOCH_PACKET_CORRUPT, s2)

end Operations

/-! ## Outcomes of a run -/

/-- The run, started in state `s`, rejected the packet on its own: it returned
`MOLOCH_PACKET_CORRUPT`, made no call of the downstream routine and left the
state of the framework alone. -/
def Rejected {B P σ : Type} (s : Env B P σ) (r : Option (MolochPacketRC × Env B P σ)) : Prop :=
  ∃ e, r = some (MolochPacketRC.MOLOCH_PACKET_CORRUPT, e) ∧ e.calls = s.calls ∧ e.world = s.world

/-- The run, started in state `s`, made exactly one call of the downstream
routine, the call `c`, and returned what the dispatcher `cb` answered to it. -/
def DispatchedOnce {B P σ : Type} (cb : Dispatcher B P σ) (s : Env B P σ)
    (r : Option (MolochPacketRC × Env B P σ)) (c : CbCall B P) : Prop :=
  ∃ e, r = some ((cb c s.world).1, e) ∧ e.calls = s.calls ++ [c] ∧ e.world = (cb c s.world).2

/-- The three rejection triggers listed by the specification: the buffer is
shorter than 4 bytes, or shorter than the declared header length, or the
next-protocol code is outside of the allow-list. -/
def specTrigger (data : BytePtr) (len : Int) : Prop :=
  len < 4 ∨ (∃ b1, data.read 1 = some b1 ∧ len < nsh_length b1) ∨
    (∃ b3, data.read 3 = some b3 ∧ b3.val ∉ [1, 2, 3, 4, 5])

/-! ## Concrete inputs used to exercise the embedding -/

/-- A dispatcher that counts its calls in the framework state and reports the
payload length as an uninterpreted result code. -/
def countingCb : Dispatcher Nat Nat Nat :=
  fun c w => (MolochPacketRC.other c.len.toNat, w + 1)

/-- A dispatcher that reports every packet as corrupt. -/
def corruptCb : Dispatcher Nat Nat Nat :=
  fun _ w => (MolochPacketRC.MOLOCH_PACKET_CORRUPT, w + 1)

/-- An initial state: nothing read, nothing dispatched. -/
def env0 : Env Nat Nat Nat :=
  { world := 0, reads := [], calls := [] }

/-- A buffer of `n` bytes with the given bytes 1 and 3 and zeroes elsewhere
(`4 ≤ n` for both to be present). -/
def mkBuf (n : Nat) (b1 b3 : uint8_t) : BytePtr :=
  { mem := ((List.replicate n (0 : uint8_t)).set 1 b1).set 3 b3, off := 0 }

/-- The allow-list of the specification, `1→IPv4, 2→IPv6, 3→GenericEthernet,
4→SameEncapsulation, 5→MPLS`, written with the identifiers of the source:
IPv4 is `ETHERTYPE_IP`, IPv6 is `ETHERTYPE_IPV6`, GenericEthernet is
`MOLOCH_ETHERTYPE_ETHER`, SameEncapsulation is `MOLOCH_ETHERTYPE_NSH` and MPLS
is `MOLOCH_ETHERTYPE_MPLS`.  Codes outside of the list have no tag. -/
def specProtocolTag : Nat → Option EtherType
  | 1 => some EtherType.ETHERTYPE_IP
  | 2 => some EtherType.ETHERTYPE_IPV6
  | 3 => some EtherType.MOLOCH_ETHERTYPE_ETHER
  | 4 => some EtherType.MOLOCH_ETHERTYPE_NSH
  | 5 => some EtherType.MOLOCH_ETHERTYPE_MPLS
  | _ => none

/-- The state in which the parser reaches its `switch`: bytes 1 and 3 have
been read, nothing else has changed. -/
def afterReads {B P σ : Type} (s : Env B P σ) : Env B P σ :=
  { world := s.world, reads := s.reads ++ [1, 3], calls := s.calls }

/-! ## Registration -/

/-- The type of a packet handler as this development embeds one: the function
of `(batch, packet, data, len)`, run over the state `Env` and given the
behaviour of the downstream routine. -/
abbrev Handler (B P σ : Type) :=
  Dispatcher B P σ → B → P → BytePtr → Int → Env B P σ → Option (MolochPacketRC × Env B P σ)

/-- The arguments of one call of `moloch_packet_set_ethernet_cb`. -/
structure Registration (B P σ : Type) where
  type : EtherType
  enqueueCb : Handler B P σ

/-- The explicit registry state: `table` is the registry owned by the external
framework and `registrations` logs the calls of the registration routine made
so far. -/
structure RegistryEnv (B P σ ρ : Type) where
  table : ρ
  registrations : List (Registration B P σ)

/-- The behaviour of the external registration routine on the registry. -/
abbrev Registrar (B P σ ρ : Type) := EtherType → Handler B P σ → ρ → ρ

section Registration

variable {B P σ ρ : Type}

/-- The external routine `moloch_packet_set_ethernet_cb`: the call is logged and
its effect on the registry is the one of `reg`. -/
def moloch_packet_set_ethernet_cb (reg : Registrar B P σ ρ) (type : EtherType)
    (enqueueCb : Handler B P σ) (r : RegistryEnv B P σ ρ) : RegistryEnv B P σ ρ :=
  { table := reg type enqueueCb r.table,
    registrations := r.registrations ++ [{ type := type, enqueueCb := enqueueCb }] }

/-- The function `moloch_parser_init`. -/
def moloch_parser_init (reg : Registrar B P σ ρ) (r : RegistryEnv B P σ ρ) :
    RegistryEnv B P σ ρ :=
  moloch_packet_set_ethernet_cb reg EtherType.MOLOCH_ETHERTYPE_NSH nsh_packet_enqueue r

/-- Modelled from the spec: the dispatch registry is an "external table mapping
protocol identifiers to handler operations" and `register(protocolIdentifier,
handler)` binds the handler to the identifier; the routine itself is not part
of the sources at hand. -/
def tableRegistrar : Registrar B P σ (EtherType → Option (Handler B P σ)) :=
  fun type enqueueCb table t => if t = type then some enqueueCb else table t

end Registration

/-! ## Nested headers -/

/-- A dispatcher that does nothing but answer; the calls it receives are found
in the log of the run. -/
def idleCb : Dispatcher Unit Unit Unit :=
  fun _ w => (MolochPacketRC.other 0, w)

/-- Modelled from the spec: "if the resolved tag is the same encapsulation
type, the dispatch registry will re-invoke this same operation on the inner
slice".  One run of `nsh_packet_enqueue` on `(data, len)`; the result is the
slice on which the operation is re-invoked, when the run has called the
downstream routine with `MOLOCH_ETHERTYPE_NSH`, and `none` when the run ends
the chain. -/
def nshInner (data : BytePtr) (len : Int) : Option (BytePtr × Int) :=
  match nsh_packet_enqueue idleCb () () data len { world := (), reads := [], calls := [] } with
  | none => none
  | some (_, e) =>
    match e.calls with
    | [c] => if c.type = EtherType.MOLOCH_ETHERTYPE_NSH then some (c.data, c.len) else none
    | _ => none

/-- Modelled from the spec: the chain of nested headers followed by the
re-invocations, with `fuel` bounding the number of runs.  The result lists the
header length `len - innerLen` of every level that was re-invoked on its inner
slice and tells whether the chain has ended (`true`) or the fuel ran out
(`false`). -/
def nshChain : Nat → BytePtr → Int → List Int × Bool
  | 0, _, _ => ([], false)
  | fuel + 1, data, len =>
    match nshInner data len with
    | none => ([], true)
    | some (d, l) => ((len - l) :: (nshChain fuel d l).1, (nshChain fuel d l).2)

/-! ## More concrete inputs -/

/-- A buffer that agrees with `mkBuf 12 1 2` on the low six bits of byte 1 and
on byte 3 and differs everywhere else; the pointer is two bytes into its
allocation. -/
def noisyBuf : BytePtr :=
  { mem := [7, 7, 255, 0xC1, 0x55, 2, 9, 9, 9, 9, 9, 9, 9, 9], off := 2 }

/-- Two nested headers of 4 and 8 bytes with next-protocol code 4, followed by
a header of 4 bytes with code 1 and its payload. -/
def nestedBuf : BytePtr :=
  { mem := [0, 1, 0, 4, 0, 2, 0, 4, 0, 0, 0, 0, 0, 1, 0, 1, 0, 0, 0, 0], off := 0 }

/-- A header of length 0 with next-protocol code 4: every re-invocation is on
the same slice. -/
def loopBuf : BytePtr :=
  { mem := [0, 0, 0, 4, 0, 0, 0, 0], off := 0 }

/-- An initial registry: an empty table, no registration made. -/
def registry0 : RegistryEnv Nat Nat Nat (EtherType → Option (Handler Nat Nat Nat)) :=
  { table := fun _ => none, registrations := [] }

/-! ## Basic facts about the embedding -/

section Facts

variable {B P σ : Type}

theorem land_63_eq_mod (b : uint8_t) : b.val &&& 0x3f = b.val % 64 := by
  have h := Nat.and_pow_two_sub_one_eq_mod b.val 6
  simpa using h

theorem nsh_length_eq (b : uint8_t) : nsh_length b = 4 * ((b.val % 64 : Nat) : Int) := by
  unfold nsh_length
  rw [land_63_eq_mod]
  ring

theorem nsh_length_nonneg (b : uint8_t) : 0 ≤ nsh_length b := by
  rw [nsh_length_eq]
  positivity

theorem nsh_length_le (b : uint8_t) : nsh_length b ≤ 252 := by
  rw [nsh_length_eq]
  have h : b.val % 64 < 64 := Nat.mod_lt _ (by norm_num)
  omega

theorem specProtocolTag_some {n : Nat} {t : EtherType} (h : specProtocolTag n = some t) :
    n = 1 ∨ n = 2 ∨ n = 3 ∨ n = 4 ∨ n = 5 := by
  unfold specProtocolTag at h
  split at h <;> simp at h <;> simp

theorem specProtocolTag_of_mem {n : Nat} (h : n ∈ [1, 2, 3, 4, 5]) :
    ∃ t, specProtocolTag n = some t := by
  simp only [List.mem_cons, List.mem_singleton, List.not_mem_nil, or_false] at h
  rcases h with h | h | h | h | h <;> subst h <;> exact ⟨_, rfl⟩

theorem specProtocolTag_none {n : Nat} (h : n ∉ [1, 2, 3, 4, 5]) :
    specProtocolTag n = none := by
  simp only [List.mem_cons, List.mem_singleton, List.not_mem_nil, or_false, not_or] at h
  obtain ⟨h1, h2, h3, h4, h5⟩ := h
  unfold specProtocolTag
  split <;> first | rfl | contradiction

theorem specProtocolTag_injective {m n : Nat} {t : EtherType}
    (hm : specProtocolTag m = some t) (hn : specProtocolTag n = some t) : m = n := by
  rcases specProtocolTag_some hm with h | h | h | h | h <;>
    rcases specProtocolTag_some hn with k | k | k | k | k <;>
    subst h <;> subst k <;> simp [specProtocolTag] at hm hn <;>
    first | rfl | (subst hm; cases hn)

/-- A buffer that holds `len ≥ 4` bytes has a byte 1 and a byte 3. -/
theorem read_of_valid {data : BytePtr} {len : Int} (hv : data.valid len) (h4 : 4 ≤ len) :
    (∃ b1, data.read 1 = some b1) ∧ (∃ b3, data.read 3 = some b3) := by
  obtain ⟨h0, hle⟩ := hv
  have hr : ∀ i : Int, 0 ≤ i → i < 4 → ∃ b, data.read i = some b := by
    intro i hi0 hi4
    unfold BytePtr.read
    rw [if_pos (by omega)]
    have hlt : (data.off + i).toNat < data.mem.length := by omega
    exact ⟨data.mem[(data.off + i).toNat], List.getElem?_eq_getElem hlt⟩
  exact ⟨hr 1 (by norm_num) (by norm_num), hr 3 (by norm_num) (by norm_num)⟩

/-- Path 1 of the parser: a declared length below 4. -/
theorem nsh_short (cb : Dispatcher B P σ) (batch : B) (packet : P) (data : BytePtr)
    (len : Int) (s : Env B P σ) (h : len < 4) :
    nsh_packet_enqueue cb batch packet data len s
      = some (MolochPacketRC.MOLOCH_PACKET_CORRUPT, s) := by
  unfold nsh_packet_enqueue
  rw [if_pos h]

/-- Path 2 of the parser: the declared header is longer than the buffer. -/
theorem nsh_header_too_long (cb : Dispatcher B P σ) (batch : B) (packet : P)
    (data : BytePtr) (len : Int) (s : Env B P σ) (b1 : uint8_t)
    (h4 : 4 ≤ len) (h1 : data.read 1 = some b1) (hl : len < nsh_length b1) :
    nsh_packet_enqueue cb batch packet data len s
      = some (MolochPacketRC.MOLOCH_PACKET_CORRUPT,
          { world := s.world, reads := s.reads ++ [1], calls := s.calls }) := by
  unfold nsh_packet_enqueue load
  rw [if_neg (not_lt.mpr h4)]
  simp only [h1]
  rw [if_pos hl]

/-- Path 3 of the parser: the `default` branch of the `switch`. -/
theorem nsh_unknown_code (cb : Dispatcher B P σ) (batch : B) (packet : P)
    (data : BytePtr) (len : Int) (s : Env B P σ) (b1 b3 : uint8_t)
    (h4 : 4 ≤ len) (h1 : data.read 1 = some b1) (hl : nsh_length b1 ≤ len)
    (h3 : data.read 3 = some b3) (hc : b3.val ∉ [1, 2, 3, 4, 5]) :
    nsh_packet_enqueue cb batch packet data len s
      = some (MolochPacketRC.MOLOCH_PACKET_CORRUPT, afterReads s) := by
  simp only [List.mem_cons, List.mem_singleton, List.not_mem_nil, or_false, not_or] at hc
  obtain ⟨c1, c2, c3, c4, c5⟩ := hc
  unfold nsh_packet_enqueue load
  rw [if_neg (not_lt.mpr h4)]
  simp only [h1]
  rw [if_neg (not_lt.mpr hl)]
  simp only [h3]
  simp [afterReads]

/-- Path 4 of the parser: one of the five `case` branches of the `switch`. -/
theorem nsh_accept (cb : Dispatcher B P σ) (batch : B) (packet : P)
    (data : BytePtr) (len : Int) (s : Env B P σ) (b1 b3 : uint8_t) (t : EtherType)
    (h4 : 4 ≤ len) (h1 : data.read 1 = some b1) (hl : nsh_length b1 ≤ len)
    (h3 : data.read 3 = some b3) (ht : specProtocolTag b3.val = some t) :
    nsh_packet_enqueue cb batch packet data len s
      = some (moloch_packet_run_ethernet_cb cb batch packet (data.add (nsh_length b1))
          (len - nsh_length b1) t "NSH" (afterReads s)) := by
  unfold nsh_packet_enqueue load
  rw [if_neg (not_lt.mpr h4)]
  simp only [h1]
  rw [if_neg (not_lt.mpr hl)]
  simp only [h3]
  rcases specProtocolTag_some ht with h | h | h | h | h <;>
    rw [h] at ht ⊢ <;> simp [specProtocolTag] at ht <;> subst ht <;> simp [afterReads]

/-- The call made on path 4 is made exactly once and its result is returned. -/
theorem nsh_accept_once (cb : Dispatcher B P σ) (batch : B) (packet : P)
    (data : BytePtr) (len : Int) (s : Env B P σ) (b1 b3 : uint8_t) (t : EtherType)
    (h4 : 4 ≤ len) (h1 : data.read 1 = some b1) (hl : nsh_length b1 ≤ len)
    (h3 : data.read 3 = some b3) (ht : specProtocolTag b3.val = some t) :
    DispatchedOnce cb s (nsh_packet_enqueue cb batch packet data len s)
      { batch := batch, packet := packet, data := data.add (nsh_length b1),
        len := len - nsh_length b1, type := t, str := "NSH" } := by
  rw [nsh_accept cb batch packet data len s b1 b3 t h4 h1 hl h3 ht]
  exact ⟨_, rfl, rfl, rfl⟩

/-- A run cannot both reject on its own and dispatch. -/
theorem not_rejected_of_dispatched {cb : Dispatcher B P σ} {s : Env B P σ}
    {r : Option (MolochPacketRC × Env B P σ)} {c : CbCall B P}
    (hd : DispatchedOnce cb s r c) : ¬ Rejected s r := by
  rintro ⟨e, he, hcalls, _⟩
  obtain ⟨e', he', hcalls', _⟩ := hd
  rw [he] at he'
  have hee : e = e' := by
    have := Option.some.inj he'
    exact congrArg Prod.snd this
  subst hee
  rw [hcalls] at hcalls'
  have := congrArg List.length hcalls'
  simp at this

theorem add_zero_ptr (data : BytePtr) : data.add 0 = data := by
  cases data
  simp [BytePtr.add]

theorem read_add (data : BytePtr) (n i : Int) : (data.add n).read i = data.read (n + i) := by
  simp [BytePtr.add, BytePtr.read, add_assoc]

/-- A header length that is not zero is at least one word of 4 bytes. -/
theorem nsh_length_ge_four {b : uint8_t} (h : 0 < nsh_length b) : 4 ≤ nsh_length b := by
  rw [nsh_length_eq] at h ⊢
  omega

/-- The only ways the embedding can leave the allocation: byte 1 is missing. -/
theorem nsh_fault_1 (cb : Dispatcher B P σ) (batch : B) (packet : P) (data : BytePtr)
    (len : Int) (s : Env B P σ) (h4 : 4 ≤ len) (h1 : data.read 1 = none) :
    nsh_packet_enqueue cb batch packet data len s = none := by
  unfold nsh_packet_enqueue load
  rw [if_neg (not_lt.mpr h4)]
  simp only [h1]

/-- The only ways the embedding can leave the allocation: byte 3 is missing. -/
theorem nsh_fault_3 (cb : Dispatcher B P σ) (batch : B) (packet : P) (data : BytePtr)
    (len : Int) (s : Env B P σ) (b1 : uint8_t) (h4 : 4 ≤ len) (h1 : data.read 1 = some b1)
    (hl : nsh_length b1 ≤ len) (h3 : data.read 3 = none) :
    nsh_packet_enqueue cb batch packet data len s = none := by
  unfold nsh_packet_enqueue load
  rw [if_neg (not_lt.mpr h4)]
  simp only [h1]
  rw [if_neg (not_lt.mpr hl)]
  simp only [h3]

/-- A run that is re-invoked on an inner slice has accepted its header, and
the inner slice is the input advanced by the header length. -/
theorem nshInner_some {data d : BytePtr} {len l : Int} (h : nshInner data len = some (d, l)) :
    ∃ b1, 4 ≤ len ∧ data.read 1 = some b1 ∧ nsh_length b1 ≤ len ∧
      d = data.add (nsh_length b1) ∧ l = len - nsh_length b1 := by
  unfold nshInner at h
  by_cases h4 : len < 4
  · rw [nsh_short _ _ _ _ _ _ h4] at h
    simp at h
  · have h4 := not_lt.mp h4
    cases h1 : data.read 1 with
    | none =>
      rw [nsh_fault_1 _ _ _ _ _ _ h4 h1] at h
      simp at h
    | some b1 =>
      by_cases hl : len < nsh_length b1
      · rw [nsh_header_too_long _ _ _ _ _ _ b1 h4 h1 hl] at h
        simp at h
      · have hl := not_lt.mp hl
        cases h3 : data.read 3 with
        | none =>
          rw [nsh_fault_3 _ _ _ _ _ _ b1 h4 h1 hl h3] at h
          simp at h
        | some b3 =>
          by_cases hc : b3.val ∈ [1, 2, 3, 4, 5]
          · obtain ⟨t, ht⟩ := specProtocolTag_of_mem hc
            rw [nsh_accept _ _ _ _ _ _ b1 b3 t h4 h1 hl h3 ht] at h
            simp only [moloch_packet_run_ethernet_cb, afterReads, List.nil_append] at h
            split at h
            · cases h
              exact ⟨b1, h4, rfl, hl, rfl, rfl⟩
            · cases h
          · rw [nsh_unknown_code _ _ _ _ _ _ b1 b3 h4 h1 hl h3 hc] at h
            simp [afterReads] at h

/-- A chain whose headers all have a length that is not zero has at most
`len / 4` levels and has ended as soon as the fuel exceeds `len / 4`. -/
theorem nshChain_bound : ∀ (fuel : Nat) (data : BytePtr) (len : Int),
    (∀ h ∈ (nshChain fuel data len).1, 0 < h) →
    (nshChain fuel data len).1.length ≤ (len / 4).toNat ∧
      ((len / 4).toNat < fuel → (nshChain fuel data len).2 = true)
  | 0, data, len, _ => by simp [nshChain]
  | fuel + 1, data, len, hpos => by
    cases hin : nshInner data len with
    | none => simp [nshChain, hin]
    | some p =>
      obtain ⟨d, l⟩ := p
      obtain ⟨b1, h4, _, hl, _, hlen⟩ := nshInner_some hin
      simp only [nshChain, hin] at hpos ⊢
      have hh : 0 < len - l := hpos _ (List.mem_cons_self _ _)
      have hge : 4 ≤ nsh_length b1 := nsh_length_ge_four (by omega)
      have ih := nshChain_bound fuel d l (fun h hm => hpos h (List.mem_cons_of_mem _ hm))
      have hstep : (l / 4).toNat + 1 ≤ (len / 4).toNat := by omega
      refine ⟨?_, fun hf => ih.2 (by omega)⟩
      simp only [List.length_cons]
      omega

end Facts

/-! ## The claims -/

section Claims

variable {B P σ : Type}

/-- C1: for every buffer and every declared length `len < 4`, zero and negative
lengths included, `nsh_packet_enqueue` returns `MOLOCH_PACKET_CORRUPT` whatever
the buffer holds, and the state comes back as it was received: the downstream
routine has not been called and no byte has been read. -/
theorem C1_short_len_corrupt (cb : Dispatcher B P σ) (batch : B) (packet : P)
    (data : BytePtr) (len : Int) (s : Env B P σ) (h : len < 4) :
    nsh_packet_enqueue cb batch packet data len s
        = some (MolochPacketRC.MOLOCH_PACKET_CORRUPT, s) ∧
      Rejected s (nsh_packet_enqueue cb batch packet data len s) := by
  have hr := nsh_short cb batch packet data len s h
  exact ⟨hr, s, hr, rfl, rfl⟩

/-- Witness for C1: the scenario `len = 3` of the specification. -/
theorem C1_short_len_corrupt_witness :
    (3 : Int) < 4 ∧
      (nsh_packet_enqueue countingCb 7 9 (mkBuf 3 6 1) 3 env0
          = some (MolochPacketRC.MOLOCH_PACKET_CORRUPT, env0) ∧
        Rejected env0 (nsh_packet_enqueue countingCb 7 9 (mkBuf 3 6 1) 3 env0)) :=
  ⟨by decide, C1_short_len_corrupt countingCb 7 9 (mkBuf 3 6 1) 3 env0 (by decide)⟩

/-- C2: whenever the declared header length `(data[1] & 0x3f) * 4` exceeds
`len`, `nsh_packet_enqueue` returns `MOLOCH_PACKET_CORRUPT` without calling the
downstream routine; nothing is assumed about byte 3, which may hold an allowed
code. -/
theorem C2_header_exceeds_len_corrupt (cb : Dispatcher B P σ) (batch : B) (packet : P)
    (data : BytePtr) (len : Int) (s : Env B P σ) (b1 : uint8_t)
    (h1 : data.read 1 = some b1) (hl : len < nsh_length b1) :
    Rejected s (nsh_packet_enqueue cb batch packet data len s) := by
  by_cases h4 : len < 4
  · exact ⟨s, nsh_short cb batch packet data len s h4, rfl, rfl⟩
  · exact ⟨_, nsh_header_too_long cb batch packet data len s b1 (not_lt.mp h4) h1 hl, rfl, rfl⟩

/-- Witness for C2: byte 1 is `7`, so 28 header bytes are declared in a buffer
of 10, and byte 3 holds the allowed code `4`. -/
theorem C2_header_exceeds_len_corrupt_witness :
    (mkBuf 10 7 4).read 1 = some 7 ∧ (10 : Int) < nsh_length 7 ∧
      (mkBuf 10 7 4).read 3 = some 4 ∧
      Rejected env0 (nsh_packet_enqueue countingCb 7 9 (mkBuf 10 7 4) 10 env0) :=
  ⟨by decide, by decide, by decide,
    C2_header_exceeds_len_corrupt countingCb 7 9 (mkBuf 10 7 4) 10 env0 7 (by decide) (by decide)⟩

/-- C3: for every input with `len ≥ 4` and `(data[1] & 0x3f) * 4 ≤ len` whose
byte 3 is none of `1, 2, 3, 4, 5` (any of the 251 other byte values),
`nsh_packet_enqueue` returns `MOLOCH_PACKET_CORRUPT` and the downstream routine
is not called. -/
theorem C3_unknown_code_corrupt (cb : Dispatcher B P σ) (batch : B) (packet : P)
    (data : BytePtr) (len : Int) (s : Env B P σ) (b1 b3 : uint8_t)
    (h4 : 4 ≤ len) (h1 : data.read 1 = some b1) (hl : nsh_length b1 ≤ len)
    (h3 : data.read 3 = some b3) (hc : b3.val ∉ [1, 2, 3, 4, 5]) :
    Rejected s (nsh_packet_enqueue cb batch packet data len s) :=
  ⟨_, nsh_unknown_code cb batch packet data len s b1 b3 h4 h1 hl h3 hc, rfl, rfl⟩

/-- Witness for C3: a buffer of 10 bytes with an 8 byte header and the code
`255` in byte 3. -/
theorem C3_unknown_code_corrupt_witness :
    (4 : Int) ≤ 10 ∧ (mkBuf 10 2 255).read 1 = some 2 ∧ nsh_length 2 ≤ 10 ∧
      (mkBuf 10 2 255).read 3 = some 255 ∧ (255 : uint8_t).val ∉ [1, 2, 3, 4, 5] ∧
      Rejected env0 (nsh_packet_enqueue countingCb 7 9 (mkBuf 10 2 255) 10 env0) :=
  ⟨by decide, by decide, by decide, by decide, by decide,
    C3_unknown_code_corrupt countingCb 7 9 (mkBuf 10 2 255) 10 env0 2 255
      (by decide) (by decide) (by decide) (by decide) (by decide)⟩

/-- C4: for every input with `len ≥ 4`, `(data[1] & 0x3f) * 4 ≤ len` and a
byte 3 among `1, 2, 3, 4, 5`, the downstream routine is called exactly once and
the protocol identifier of that call is the one of the fixed mapping
`1→ETHERTYPE_IP, 2→ETHERTYPE_IPV6, 3→MOLOCH_ETHERTYPE_ETHER,
4→MOLOCH_ETHERTYPE_NSH, 5→MOLOCH_ETHERTYPE_MPLS`; the mapping is injective:
the identifier passed determines the code. -/
theorem C4_tag_mapping (cb : Dispatcher B P σ) (batch : B) (packet : P)
    (data : BytePtr) (len : Int) (s : Env B P σ) (b1 b3 : uint8_t)
    (h4 : 4 ≤ len) (h1 : data.read 1 = some b1) (hl : nsh_length b1 ≤ len)
    (h3 : data.read 3 = some b3) (hc : b3.val ∈ [1, 2, 3, 4, 5]) :
    ∃ c, DispatchedOnce cb s (nsh_packet_enqueue cb batch packet data len s) c ∧
      specProtocolTag b3.val = some c.type ∧
      (b3.val = 1 → c.type = EtherType.ETHERTYPE_IP) ∧
      (b3.val = 2 → c.type = EtherType.ETHERTYPE_IPV6) ∧
      (b3.val = 3 → c.type = EtherType.MOLOCH_ETHERTYPE_ETHER) ∧
      (b3.val = 4 → c.type = EtherType.MOLOCH_ETHERTYPE_NSH) ∧
      (b3.val = 5 → c.type = EtherType.MOLOCH_ETHERTYPE_MPLS) ∧
      (∀ n : Nat, specProtocolTag n = some c.type → n = b3.val) := by
  obtain ⟨t, ht⟩ := specProtocolTag_of_mem hc
  refine ⟨_, nsh_accept_once cb batch packet data len s b1 b3 t h4 h1 hl h3 ht, ht, ?_⟩
  have key : ∀ n : Nat, ∀ u : EtherType, b3.val = n → specProtocolTag n = some u → t = u := by
    intro n u hn hu
    rw [← hn, ht] at hu
    exact Option.some.inj hu
  exact ⟨fun h => key 1 _ h rfl, fun h => key 2 _ h rfl, fun h => key 3 _ h rfl,
    fun h => key 4 _ h rfl, fun h => key 5 _ h rfl,
    fun n hn => specProtocolTag_injective hn ht⟩

/-- Witness for C4: code `5` in a buffer of 12 bytes with a 4 byte header. -/
theorem C4_tag_mapping_witness :
    (4 : Int) ≤ 12 ∧ (mkBuf 12 1 5).read 1 = some 1 ∧ nsh_length 1 ≤ 12 ∧
      (mkBuf 12 1 5).read 3 = some 5 ∧ (5 : uint8_t).val ∈ [1, 2, 3, 4, 5] ∧
      ∃ c, DispatchedOnce countingCb env0
          (nsh_packet_enqueue countingCb 7 9 (mkBuf 12 1 5) 12 env0) c ∧
        specProtocolTag (5 : uint8_t).val = some c.type ∧
        ((5 : uint8_t).val = 1 → c.type = EtherType.ETHERTYPE_IP) ∧
        ((5 : uint8_t).val = 2 → c.type = EtherType.ETHERTYPE_IPV6) ∧
        ((5 : uint8_t).val = 3 → c.type = EtherType.MOLOCH_ETHERTYPE_ETHER) ∧
        ((5 : uint8_t).val = 4 → c.type = EtherType.MOLOCH_ETHERTYPE_NSH) ∧
        ((5 : uint8_t).val = 5 → c.type = EtherType.MOLOCH_ETHERTYPE_MPLS) ∧
        (∀ n : Nat, specProtocolTag n = some c.type → n = (5 : uint8_t).val) :=
  ⟨by decide, by decide, by decide, by decide, by decide,
    C4_tag_mapping countingCb 7 9 (mkBuf 12 1 5) 12 env0 1 5
      (by decide) (by decide) (by decide) (by decide) (by decide)⟩

/-- C5: for every accepted input (`len ≥ 4`, header length
`(data[1] & 0x3f) * 4 ≤ len`, byte 3 among `1..5`) the view handed to the
downstream routine is the input pointer advanced by the header length, over
the same allocation, with length `len` minus the header length; its `i`-th
byte is `data[headerLength + i]`. -/
theorem C5_payload_view (cb : Dispatcher B P σ) (batch : B) (packet : P)
    (data : BytePtr) (len : Int) (s : Env B P σ) (b1 b3 : uint8_t)
    (h4 : 4 ≤ len) (h1 : data.read 1 = some b1) (hl : nsh_length b1 ≤ len)
    (h3 : data.read 3 = some b3) (hc : b3.val ∈ [1, 2, 3, 4, 5]) :
    ∃ c, DispatchedOnce cb s (nsh_packet_enqueue cb batch packet data len s) c ∧
      c.data.mem = data.mem ∧
      c.data.off = data.off + nsh_length b1 ∧
      c.len = len - nsh_length b1 ∧
      (∀ i : Int, 0 ≤ i → i < len - nsh_length b1 →
        c.data.read i = data.read (nsh_length b1 + i)) := by
  obtain ⟨t, ht⟩ := specProtocolTag_of_mem hc
  exact ⟨_, nsh_accept_once cb batch packet data len s b1 b3 t h4 h1 hl h3 ht, rfl, rfl, rfl,
    fun i _ _ => read_add data (nsh_length b1) i⟩

/-- Witness for C5: the scenario of the specification, `data[1] = 0x06`,
`len = 44`, `data[3] = 1`; the run hands over offset 24 and length 20 with the
identifier `ETHERTYPE_IP`. -/
theorem C5_payload_view_witness :
    ((4 : Int) ≤ 44 ∧ (mkBuf 44 6 1).read 1 = some 6 ∧ nsh_length 6 ≤ 44 ∧
      (mkBuf 44 6 1).read 3 = some 1 ∧ (1 : uint8_t).val ∈ [1, 2, 3, 4, 5]) ∧
      (∃ c, DispatchedOnce countingCb env0
          (nsh_packet_enqueue countingCb 7 9 (mkBuf 44 6 1) 44 env0) c ∧
        c.data.mem = (mkBuf 44 6 1).mem ∧
        c.data.off = (mkBuf 44 6 1).off + nsh_length 6 ∧
        c.len = 44 - nsh_length 6 ∧
        (∀ i : Int, 0 ≤ i → i < 44 - nsh_length 6 →
          c.data.read i = (mkBuf 44 6 1).read (nsh_length 6 + i))) ∧
      nsh_packet_enqueue countingCb 7 9 (mkBuf 44 6 1) 44 env0
        = some (MolochPacketRC.other 20,
            { world := 1, reads := [1, 3],
              calls := [{ batch := 7, packet := 9,
                          data := { mem := (mkBuf 44 6 1).mem, off := 24 },
                          len := 20, type := EtherType.ETHERTYPE_IP, str := "NSH" }] }) :=
  ⟨⟨by decide, by decide, by decide, by decide, by decide⟩,
    C5_payload_view countingCb 7 9 (mkBuf 44 6 1) 44 env0 6 1
      (by decide) (by decide) (by decide) (by decide) (by decide),
    by decide⟩

/-- C6: for every accepted input and every dispatcher `cb`, the value returned
by `nsh_packet_enqueue` is the value `cb` returned for the single call made,
whatever it is (`MOLOCH_PACKET_CORRUPT` included), and the state of the
framework is the one that call left. -/
theorem C6_result_passthrough (cb : Dispatcher B P σ) (batch : B) (packet : P)
    (data : BytePtr) (len : Int) (s : Env B P σ) (b1 b3 : uint8_t)
    (h4 : 4 ≤ len) (h1 : data.read 1 = some b1) (hl : nsh_length b1 ≤ len)
    (h3 : data.read 3 = some b3) (hc : b3.val ∈ [1, 2, 3, 4, 5]) :
    ∃ c e, nsh_packet_enqueue cb batch packet data len s = some ((cb c s.world).1, e) ∧
      e.calls = s.calls ++ [c] ∧ e.world = (cb c s.world).2 := by
  obtain ⟨t, ht⟩ := specProtocolTag_of_mem hc
  exact ⟨_, nsh_accept_once cb batch packet data len s b1 b3 t h4 h1 hl h3 ht⟩

/-- Witness for C6: a dispatcher that answers `MOLOCH_PACKET_CORRUPT`; the run
returns that answer together with the log of the one call made. -/
theorem C6_result_passthrough_witness :
    ((4 : Int) ≤ 12 ∧ (mkBuf 12 1 2).read 1 = some 1 ∧ nsh_length 1 ≤ 12 ∧
      (mkBuf 12 1 2).read 3 = some 2 ∧ (2 : uint8_t).val ∈ [1, 2, 3, 4, 5]) ∧
      (∃ c e, nsh_packet_enqueue corruptCb 7 9 (mkBuf 12 1 2) 12 env0
          = some ((corruptCb c env0.world).1, e) ∧
        e.calls = env0.calls ++ [c] ∧ e.world = (corruptCb c env0.world).2) ∧
      nsh_packet_enqueue corruptCb 7 9 (mkBuf 12 1 2) 12 env0
        = some (MolochPacketRC.MOLOCH_PACKET_CORRUPT,
            { world := 1, reads := [1, 3],
              calls := [{ batch := 7, packet := 9,
                          data := { mem := (mkBuf 12 1 2).mem, off := 4 },
                          len := 8, type := EtherType.ETHERTYPE_IPV6, str := "NSH" }] }) :=
  ⟨⟨by decide, by decide, by decide, by decide, by decide⟩,
    C6_result_passthrough corruptCb 7 9 (mkBuf 12 1 2) 12 env0 1 2
      (by decide) (by decide) (by decide) (by decide) (by decide),
    by decide⟩

/-- C7: for every input whose buffer holds the `len` bytes declared,
`nsh_packet_enqueue` returns `MOLOCH_PACKET_CORRUPT` with no call of the
downstream routine if and only if `len < 4`, or `len < (data[1] & 0x3f) * 4`,
or byte 3 is none of `1, 2, 3, 4, 5`; in every other case the downstream
routine is called exactly once. -/
theorem C7_rejection_iff_trigger (cb : Dispatcher B P σ) (batch : B) (packet : P)
    (data : BytePtr) (len : Int) (s : Env B P σ) (hv : data.valid len) :
    (Rejected s (nsh_packet_enqueue cb batch packet data len s) ↔ specTrigger data len) ∧
      (¬ specTrigger data len →
        ∃ c, DispatchedOnce cb s (nsh_packet_enqueue cb batch packet data len s) c) := by
  by_cases h4 : len < 4
  · have hT : specTrigger data len := Or.inl h4
    exact ⟨⟨fun _ => hT, fun _ => ⟨s, nsh_short cb batch packet data len s h4, rfl, rfl⟩⟩,
      fun hn => absurd hT hn⟩
  · have h4 := not_lt.mp h4
    obtain ⟨⟨b1, h1⟩, ⟨b3, h3⟩⟩ := read_of_valid hv h4
    by_cases hl : len < nsh_length b1
    · have hT : specTrigger data len := Or.inr (Or.inl ⟨b1, h1, hl⟩)
      exact ⟨⟨fun _ => hT,
          fun _ => ⟨_, nsh_header_too_long cb batch packet data len s b1 h4 h1 hl, rfl, rfl⟩⟩,
        fun hn => absurd hT hn⟩
    · have hl := not_lt.mp hl
      by_cases hc : b3.val ∈ [1, 2, 3, 4, 5]
      · obtain ⟨t, ht⟩ := specProtocolTag_of_mem hc
        have hd := nsh_accept_once cb batch packet data len s b1 b3 t h4 h1 hl h3 ht
        have hT : ¬ specTrigger data len := by
          rintro (h | ⟨b, hb, hlt⟩ | ⟨b, hb, hnot⟩)
          · exact absurd h (not_lt.mpr h4)
          · rw [h1] at hb
            cases hb
            exact absurd hlt (not_lt.mpr hl)
          · rw [h3] at hb
            cases hb
            exact hnot hc
        exact ⟨⟨fun hr => absurd hr (not_rejected_of_dispatched hd), fun h => absurd h hT⟩,
          fun _ => ⟨_, hd⟩⟩
      · have hT : specTrigger data len := Or.inr (Or.inr ⟨b3, h3, hc⟩)
        exact ⟨⟨fun _ => hT,
            fun _ => ⟨_, nsh_unknown_code cb batch packet data len s b1 b3 h4 h1 hl h3 hc,
              rfl, rfl⟩⟩,
          fun hn => absurd hT hn⟩

/-- Witness for C7: a buffer that holds the 10 bytes declared. -/
theorem C7_rejection_iff_trigger_witness :
    (mkBuf 10 1 3).valid 10 ∧
      (Rejected env0 (nsh_packet_enqueue countingCb 7 9 (mkBuf 10 1 3) 10 env0)
          ↔ specTrigger (mkBuf 10 1 3) 10) ∧
      (¬ specTrigger (mkBuf 10 1 3) 10 →
        ∃ c, DispatchedOnce countingCb env0
          (nsh_packet_enqueue countingCb 7 9 (mkBuf 10 1 3) 10 env0) c) :=
  ⟨by decide, C7_rejection_iff_trigger countingCb 7 9 (mkBuf 10 1 3) 10 env0 (by decide)⟩

/-- C8: for every input with `len ≥ 4`, `data[1] & 0x3f = 0` and `data[3] = 4`
the packet is not rejected: the downstream routine is called once with the
identifier `MOLOCH_ETHERTYPE_NSH` and with the very pointer and length the
current call received, together with the same handles; a handler that routes
this call back to `nsh_packet_enqueue` therefore runs it on the arguments of
the current call. -/
theorem C8_zero_header_same_encap (cb : Dispatcher B P σ) (batch : B) (packet : P)
    (data : BytePtr) (len : Int) (s : Env B P σ) (b1 b3 : uint8_t)
    (h4 : 4 ≤ len) (h1 : data.read 1 = some b1) (hz : b1.val &&& 0x3f = 0)
    (h3 : data.read 3 = some b3) (hc : b3.val = 4) :
    ∃ c, DispatchedOnce cb s (nsh_packet_enqueue cb batch packet data len s) c ∧
      ¬ Rejected s (nsh_packet_enqueue cb batch packet data len s) ∧
      c = { batch := batch, packet := packet, data := data, len := len,
            type := EtherType.MOLOCH_ETHERTYPE_NSH, str := "NSH" } ∧
      (∀ e : Env B P σ, nsh_packet_enqueue cb c.batch c.packet c.data c.len e
        = nsh_packet_enqueue cb batch packet data len e) := by
  have hlen : nsh_length b1 = 0 := by
    unfold nsh_length
    rw [hz]
    rfl
  have ht : specProtocolTag b3.val = some EtherType.MOLOCH_ETHERTYPE_NSH := by
    rw [hc]
    rfl
  have hd := nsh_accept_once cb batch packet data len s b1 b3 _ h4 h1
    (by rw [hlen]; omega) h3 ht
  rw [hlen, add_zero_ptr, sub_zero] at hd
  exact ⟨_, hd, not_rejected_of_dispatched hd, rfl, fun _ => rfl⟩

/-- Witness for C8: the scenario of the specification, `data[1] = 0x00`,
`len = 10`, `data[3] = 4`. -/
theorem C8_zero_header_same_encap_witness :
    ((4 : Int) ≤ 10 ∧ (mkBuf 10 0 4).read 1 = some 0 ∧ (0 : uint8_t).val &&& 0x3f = 0 ∧
      (mkBuf 10 0 4).read 3 = some 4 ∧ (4 : uint8_t).val = 4) ∧
      (∃ c, DispatchedOnce countingCb env0
          (nsh_packet_enqueue countingCb 7 9 (mkBuf 10 0 4) 10 env0) c ∧
        ¬ Rejected env0 (nsh_packet_enqueue countingCb 7 9 (mkBuf 10 0 4) 10 env0) ∧
        c = { batch := 7, packet := 9, data := mkBuf 10 0 4, len := 10,
              type := EtherType.MOLOCH_ETHERTYPE_NSH, str := "NSH" } ∧
        (∀ e : Env Nat Nat Nat, nsh_packet_enqueue countingCb c.batch c.packet c.data c.len e
          = nsh_packet_enqueue countingCb 7 9 (mkBuf 10 0 4) 10 e)) ∧
      nsh_packet_enqueue countingCb 7 9 (mkBuf 10 0 4) 10 env0
        = some (MolochPacketRC.other 10,
            { world := 1, reads := [1, 3],
              calls := [{ batch := 7, packet := 9, data := mkBuf 10 0 4, len := 10,
                          type := EtherType.MOLOCH_ETHERTYPE_NSH, str := "NSH" }] }) :=
  ⟨⟨by decide, by decide, by decide, by decide, by decide⟩,
    C8_zero_header_same_encap countingCb 7 9 (mkBuf 10 0 4) 10 env0 0 4
      (by decide) (by decide) (by decide) (by decide) (by decide),
    by decide⟩

/-- C9: for every byte `b` the header length `(b & 0x3f) * 4` equals
`4 * (b mod 64)`, is a multiple of 4 and lies within `0..252`, hence within the
range of the `int` it is stored in. -/
theorem C9_header_length_range (b : uint8_t) :
    nsh_length b = 4 * ((b.val % 64 : Nat) : Int) ∧
      (4 : Int) ∣ nsh_length b ∧
      0 ≤ nsh_length b ∧ nsh_length b ≤ 252 ∧
      INT_MIN ≤ nsh_length b ∧ nsh_length b ≤ INT_MAX := by
  have h0 := nsh_length_nonneg b
  have h1 := nsh_length_le b
  refine ⟨nsh_length_eq b, ⟨((b.val % 64 : Nat) : Int), nsh_length_eq b⟩, h0, h1, ?_, ?_⟩
  · unfold INT_MIN
    omega
  · unfold INT_MAX
    omega

/-- C10: for every accepted input the batch handle and the packet handle of
the call of the downstream routine are the ones `nsh_packet_enqueue` received,
and the label of the call is the constant `"NSH"`, whichever of the five codes
byte 3 holds. -/
theorem C10_handles_and_label (cb : Dispatcher B P σ) (batch : B) (packet : P)
    (data : BytePtr) (len : Int) (s : Env B P σ) (b1 b3 : uint8_t)
    (h4 : 4 ≤ len) (h1 : data.read 1 = some b1) (hl : nsh_length b1 ≤ len)
    (h3 : data.read 3 = some b3) (hc : b3.val ∈ [1, 2, 3, 4, 5]) :
    ∃ c, DispatchedOnce cb s (nsh_packet_enqueue cb batch packet data len s) c ∧
      c.batch = batch ∧ c.packet = packet ∧ c.str = "NSH" := by
  obtain ⟨t, ht⟩ := specProtocolTag_of_mem hc
  exact ⟨_, nsh_accept_once cb batch packet data len s b1 b3 t h4 h1 hl h3 ht, rfl, rfl, rfl⟩

/-- Witness for C10: handles `7` and `9`, code `3`. -/
theorem C10_handles_and_label_witness :
    ((4 : Int) ≤ 16 ∧ (mkBuf 16 2 3).read 1 = some 2 ∧ nsh_length 2 ≤ 16 ∧
      (mkBuf 16 2 3).read 3 = some 3 ∧ (3 : uint8_t).val ∈ [1, 2, 3, 4, 5]) ∧
      ∃ c, DispatchedOnce countingCb env0
          (nsh_packet_enqueue countingCb 7 9 (mkBuf 16 2 3) 16 env0) c ∧
        c.batch = 7 ∧ c.packet = 9 ∧ c.str = "NSH" :=
  ⟨⟨by decide, by decide, by decide, by decide, by decide⟩,
    C10_handles_and_label countingCb 7 9 (mkBuf 16 2 3) 16 env0 2 3
      (by decide) (by decide) (by decide) (by decide) (by decide)⟩

/-- C11: over an explicit registry state `moloch_parser_init` makes exactly one
registration call, for the identifier `MOLOCH_ETHERTYPE_NSH` with the handler
`nsh_packet_enqueue`; that identifier is the one `nsh_packet_enqueue` passes on
for next-protocol code 4; in a registry that is a table from identifiers to
handlers the call binds `nsh_packet_enqueue` to `MOLOCH_ETHERTYPE_NSH` and
leaves every other identifier as it was. -/
theorem C11_registers_nsh_once {ρ : Type} (reg : Registrar B P σ ρ)
    (r : RegistryEnv B P σ ρ) :
    (moloch_parser_init reg r).registrations
        = r.registrations ++
          [{ type := EtherType.MOLOCH_ETHERTYPE_NSH, enqueueCb := nsh_packet_enqueue }] ∧
      (moloch_parser_init reg r).table
        = reg EtherType.MOLOCH_ETHERTYPE_NSH nsh_packet_enqueue r.table ∧
      (∀ (cb : Dispatcher B P σ) (batch : B) (packet : P) (data : BytePtr) (len : Int)
          (s : Env B P σ) (b1 b3 : uint8_t),
        4 ≤ len → data.read 1 = some b1 → nsh_length b1 ≤ len →
        data.read 3 = some b3 → b3.val = 4 →
        ∃ c, DispatchedOnce cb s (nsh_packet_enqueue cb batch packet data len s) c ∧
          ∀ g ∈ ((moloch_parser_init reg r).registrations.drop r.registrations.length),
            c.type = g.type) ∧
      (∀ tbl : RegistryEnv B P σ (EtherType → Option (Handler B P σ)),
        (moloch_parser_init tableRegistrar tbl).table EtherType.MOLOCH_ETHERTYPE_NSH
            = some nsh_packet_enqueue ∧
          ∀ t, t ≠ EtherType.MOLOCH_ETHERTYPE_NSH →
            (moloch_parser_init tableRegistrar tbl).table t = tbl.table t) := by
  refine ⟨rfl, rfl, ?_, ?_⟩
  · intro cb batch packet data len s b1 b3 h4 h1 hl h3 hc
    have ht : specProtocolTag b3.val = some EtherType.MOLOCH_ETHERTYPE_NSH := by
      rw [hc]
      rfl
    refine ⟨_, nsh_accept_once cb batch packet data len s b1 b3 _ h4 h1 hl h3 ht, ?_⟩
    intro g hg
    simp only [moloch_parser_init, moloch_packet_set_ethernet_cb, List.drop_left,
      List.mem_singleton] at hg
    rw [hg]
  · intro tbl
    refine ⟨?_, ?_⟩
    · simp [moloch_parser_init, moloch_packet_set_ethernet_cb, tableRegistrar]
    · intro t ht
      simp [moloch_parser_init, moloch_packet_set_ethernet_cb, tableRegistrar, ht]

/-- Witness for C11: the initial registry with an empty table; afterwards one
registration is logged, for `MOLOCH_ETHERTYPE_NSH`, and the table has that one
binding. -/
theorem C11_registers_nsh_once_witness :
    (moloch_parser_init tableRegistrar registry0).registrations
        = registry0.registrations ++
          [{ type := EtherType.MOLOCH_ETHERTYPE_NSH, enqueueCb := nsh_packet_enqueue }] ∧
      (moloch_parser_init tableRegistrar registry0).registrations.map (fun g => g.type)
        = [EtherType.MOLOCH_ETHERTYPE_NSH] ∧
      (moloch_parser_init tableRegistrar registry0).table EtherType.MOLOCH_ETHERTYPE_NSH
        = some nsh_packet_enqueue ∧
      (moloch_parser_init tableRegistrar registry0).table EtherType.ETHERTYPE_IP = none :=
  ⟨(C11_registers_nsh_once tableRegistrar registry0).1, rfl,
    ((C11_registers_nsh_once tableRegistrar registry0).2.2.2 registry0).1, rfl⟩

/-- C12: the outcome depends only on `len`, on the low 6 bits of byte 1 and on
byte 3: two runs on buffers that agree on `data[1] & 0x3f` and on `data[3]`,
with the same `len`, either both reject or both call the downstream routine
once, with the same protocol identifier, the same offset from the input pointer
and the same payload length; nothing is assumed about the top 2 bits of byte 1
or about any other byte. -/
theorem C12_depends_only_on_fields (cb cb' : Dispatcher B P σ) (batch batch' : B)
    (packet packet' : P) (data data' : BytePtr) (len : Int) (s s' : Env B P σ)
    (b1 b1' b3 b3' : uint8_t)
    (h1 : data.read 1 = some b1) (h1' : data'.read 1 = some b1')
    (h3 : data.read 3 = some b3) (h3' : data'.read 3 = some b3')
    (hlow : b1.val &&& 0x3f = b1'.val &&& 0x3f) (hcode : b3 = b3') :
    (Rejected s (nsh_packet_enqueue cb batch packet data len s) ∧
        Rejected s' (nsh_packet_enqueue cb' batch' packet' data' len s')) ∨
      (∃ c c', DispatchedOnce cb s (nsh_packet_enqueue cb batch packet data len s) c ∧
        DispatchedOnce cb' s' (nsh_packet_enqueue cb' batch' packet' data' len s') c' ∧
        c.type = c'.type ∧
        c.data.off - data.off = c'.data.off - data'.off ∧
        c.len = c'.len) := by
  subst hcode
  have hlen : nsh_length b1 = nsh_length b1' := by
    unfold nsh_length
    rw [hlow]
  by_cases h4 : len < 4
  · exact Or.inl ⟨⟨s, nsh_short cb batch packet data len s h4, rfl, rfl⟩,
      ⟨s', nsh_short cb' batch' packet' data' len s' h4, rfl, rfl⟩⟩
  · have h4 := not_lt.mp h4
    by_cases hl : len < nsh_length b1
    · exact Or.inl ⟨⟨_, nsh_header_too_long cb batch packet data len s b1 h4 h1 hl, rfl, rfl⟩,
        ⟨_, nsh_header_too_long cb' batch' packet' data' len s' b1' h4 h1' (hlen ▸ hl),
          rfl, rfl⟩⟩
    · have hl := not_lt.mp hl
      by_cases hc : b3.val ∈ [1, 2, 3, 4, 5]
      · obtain ⟨t, ht⟩ := specProtocolTag_of_mem hc
        refine Or.inr ⟨_, _, nsh_accept_once cb batch packet data len s b1 b3 t h4 h1 hl h3 ht,
          nsh_accept_once cb' batch' packet' data' len s' b1' b3 t h4 h1' (hlen ▸ hl) h3' ht,
          rfl, ?_, ?_⟩
        · simp only [BytePtr.add]
          rw [hlen]
          ring
        · simp only [hlen]
      · exact Or.inl ⟨⟨_, nsh_unknown_code cb batch packet data len s b1 b3 h4 h1 hl h3 hc,
            rfl, rfl⟩,
          ⟨_, nsh_unknown_code cb' batch' packet' data' len s' b1' b3 h4 h1' (hlen ▸ hl) h3' hc,
            rfl, rfl⟩⟩

/-- Witness for C12: `mkBuf 12 1 2` against `noisyBuf`, whose byte 1 is `0xC1`
and whose bytes 0, 2 and 4.. differ; different dispatchers and handles. -/
theorem C12_depends_only_on_fields_witness :
    ((mkBuf 12 1 2).read 1 = some 1 ∧ noisyBuf.read 1 = some 0xC1 ∧
      (mkBuf 12 1 2).read 3 = some 2 ∧ noisyBuf.read 3 = some 2 ∧
      (1 : uint8_t).val &&& 0x3f = (0xC1 : uint8_t).val &&& 0x3f ∧
      (mkBuf 12 1 2).read 0 ≠ noisyBuf.read 0 ∧ (mkBuf 12 1 2).read 2 ≠ noisyBuf.read 2 ∧
      (mkBuf 12 1 2).read 4 ≠ noisyBuf.read 4) ∧
      ((Rejected env0 (nsh_packet_enqueue countingCb 7 9 (mkBuf 12 1 2) 12 env0) ∧
          Rejected env0 (nsh_packet_enqueue corruptCb 3 5 noisyBuf 12 env0)) ∨
        (∃ c c', DispatchedOnce countingCb env0
            (nsh_packet_enqueue countingCb 7 9 (mkBuf 12 1 2) 12 env0) c ∧
          DispatchedOnce corruptCb env0
            (nsh_packet_enqueue corruptCb 3 5 noisyBuf 12 env0) c' ∧
          c.type = c'.type ∧
          c.data.off - (mkBuf 12 1 2).off = c'.data.off - noisyBuf.off ∧
          c.len = c'.len)) :=
  ⟨⟨by decide, by decide, by decide, by decide, by decide, by decide, by decide, by decide⟩,
    C12_depends_only_on_fields countingCb corruptCb 7 3 9 5 (mkBuf 12 1 2) noisyBuf 12
      env0 env0 1 0xC1 2 2 (by decide) (by decide) (by decide) (by decide) (by decide) rfl⟩

/-- C13: for every accepted input whose header length is not zero, the payload
length handed to the downstream routine is smaller than `len` by at least 4;
when the code is 4 the forwarded slice is the one the operation is re-invoked
on, and a chain of nested headers that all have a length that is not zero has
at most `len / 4` levels and has ended once more than `len / 4` runs are
allowed. -/
theorem C13_payload_shrinks (cb : Dispatcher B P σ) (batch : B) (packet : P)
    (data : BytePtr) (len : Int) (s : Env B P σ) (b1 b3 : uint8_t)
    (h4 : 4 ≤ len) (h1 : data.read 1 = some b1) (hl : nsh_length b1 ≤ len)
    (h3 : data.read 3 = some b3) (hc : b3.val ∈ [1, 2, 3, 4, 5])
    (hpos : 0 < nsh_length b1) :
    (∃ c, DispatchedOnce cb s (nsh_packet_enqueue cb batch packet data len s) c ∧
      c.len < len ∧ c.len ≤ len - 4 ∧
      (b3.val = 4 → nshInner data len = some (c.data, c.len))) ∧
    (∀ fuel : Nat, (∀ h ∈ (nshChain fuel data len).1, 0 < h) →
      (nshChain fuel data len).1.length ≤ (len / 4).toNat ∧
        ((len / 4).toNat < fuel → (nshChain fuel data len).2 = true)) := by
  obtain ⟨t, ht⟩ := specProtocolTag_of_mem hc
  have hge := nsh_length_ge_four hpos
  refine ⟨⟨_, nsh_accept_once cb batch packet data len s b1 b3 t h4 h1 hl h3 ht, ?_, ?_, ?_⟩,
    fun fuel hall => nshChain_bound fuel data len hall⟩
  · show len - nsh_length b1 < len
    omega
  · show len - nsh_length b1 ≤ len - 4
    omega
  · intro h44
    have ht4 : specProtocolTag b3.val = some EtherType.MOLOCH_ETHERTYPE_NSH := by
      rw [h44]
      rfl
    unfold nshInner
    rw [nsh_accept _ _ _ _ _ _ b1 b3 _ h4 h1 hl h3 ht4]
    simp [moloch_packet_run_ethernet_cb, afterReads]

/-- Witness for C13: two nested headers of 4 and 8 bytes in a buffer of 20
bytes; the chain has 2 levels, `20 / 4 = 5`, and 6 runs are enough to end it.
With a header of length 0 and code 4 the chain does not end. -/
theorem C13_payload_shrinks_witness :
    ((4 : Int) ≤ 20 ∧ nestedBuf.read 1 = some 1 ∧ nsh_length 1 ≤ 20 ∧
      nestedBuf.read 3 = some 4 ∧ (4 : uint8_t).val ∈ [1, 2, 3, 4, 5] ∧
      0 < nsh_length 1) ∧
    ((∃ c, DispatchedOnce countingCb env0
          (nsh_packet_enqueue countingCb 7 9 nestedBuf 20 env0) c ∧
        c.len < 20 ∧ c.len ≤ 20 - 4 ∧
        ((4 : uint8_t).val = 4 → nshInner nestedBuf 20 = some (c.data, c.len))) ∧
      (∀ fuel : Nat, (∀ h ∈ (nshChain fuel nestedBuf 20).1, 0 < h) →
        (nshChain fuel nestedBuf 20).1.length ≤ ((20 : Int) / 4).toNat ∧
          (((20 : Int) / 4).toNat < fuel → (nshChain fuel nestedBuf 20).2 = true))) ∧
    nshChain 6 nestedBuf 20 = ([4, 8], true) ∧
    nshChain 6 loopBuf 8 = ([0, 0, 0, 0, 0, 0], false) :=
  ⟨⟨by decide, by decide, by decide, by decide, by decide, by decide⟩,
    C13_payload_shrinks countingCb 7 9 nestedBuf 20 env0 1 4
      (by decide) (by decide) (by decide) (by decide) (by decide) (by decide),
    by decide, by decide⟩

/-- C14: for every accepted input the forwarded slice lies inside the buffer
the caller declared: `0 ≤ headerLength ≤ len`, the forwarded length
`len - headerLength` is not negative, the offset of the forwarded pointer plus
the forwarded length is `len`, and the slice is held by the allocation whenever
the `len` bytes of the input are. -/
theorem C14_slice_in_bounds (cb : Dispatcher B P σ) (batch : B) (packet : P)
    (data : BytePtr) (len : Int) (s : Env B P σ) (b1 b3 : uint8_t)
    (h4 : 4 ≤ len) (h1 : data.read 1 = some b1) (hl : nsh_length b1 ≤ len)
    (h3 : data.read 3 = some b3) (hc : b3.val ∈ [1, 2, 3, 4, 5]) :
    ∃ c, DispatchedOnce cb s (nsh_packet_enqueue cb batch packet data len s) c ∧
      0 ≤ nsh_length b1 ∧ nsh_length b1 ≤ len ∧
      c.data.mem = data.mem ∧
      c.data.off - data.off = nsh_length b1 ∧
      0 ≤ c.len ∧
      (c.data.off - data.off) + c.len = len ∧
      (data.valid len → c.data.valid c.len) := by
  obtain ⟨t, ht⟩ := specProtocolTag_of_mem hc
  have h0 := nsh_length_nonneg b1
  refine ⟨_, nsh_accept_once cb batch packet data len s b1 b3 t h4 h1 hl h3 ht,
    h0, hl, rfl, ?_, ?_, ?_, ?_⟩
  · simp only [BytePtr.add]
    ring
  · show 0 ≤ len - nsh_length b1
    omega
  · simp only [BytePtr.add]
    ring
  · rintro ⟨hoff, hlen⟩
    simp only [BytePtr.valid, BytePtr.add]
    constructor <;> omega

/-- Witness for C14: a 24 byte header in a buffer of 44 bytes. -/
theorem C14_slice_in_bounds_witness :
    ((4 : Int) ≤ 44 ∧ (mkBuf 44 6 2).read 1 = some 6 ∧ nsh_length 6 ≤ 44 ∧
      (mkBuf 44 6 2).read 3 = some 2 ∧ (2 : uint8_t).val ∈ [1, 2, 3, 4, 5]) ∧
      ∃ c, DispatchedOnce countingCb env0
          (nsh_packet_enqueue countingCb 7 9 (mkBuf 44 6 2) 44 env0) c ∧
        0 ≤ nsh_length 6 ∧ nsh_length 6 ≤ 44 ∧
        c.data.mem = (mkBuf 44 6 2).mem ∧
        c.data.off - (mkBuf 44 6 2).off = nsh_length 6 ∧
        0 ≤ c.len ∧
        (c.data.off - (mkBuf 44 6 2).off) + c.len = 44 ∧
        ((mkBuf 44 6 2).valid 44 → c.data.valid c.len) :=
  ⟨⟨by decide, by decide, by decide, by decide, by decide⟩,
    C14_slice_in_bounds countingCb 7 9 (mkBuf 44 6 2) 44 env0 6 2
      (by decide) (by decide) (by decide) (by decide) (by decide)⟩

/-- C15: when the buffer holds the `len` bytes declared, the run never leaves
the allocation: it returns a result, the indices it has read are none, or
index 1, or indices 1 and 3 in this order, every read happens with `4 ≤ len`
established and hits a byte below `len` that the allocation holds, and for
`len < 4` no byte is read at all. -/
theorem C15_reads_in_bounds (cb : Dispatcher B P σ) (batch : B) (packet : P)
    (data : BytePtr) (len : Int) (s : Env B P σ) (hv : data.valid len) :
    ∃ rc e new, nsh_packet_enqueue cb batch packet data len s = some (rc, e) ∧
      e.reads = s.reads ++ new ∧
      (new = [] ∨ new = [1] ∨ new = [1, 3]) ∧
      (∀ i ∈ new, 4 ≤ len ∧ 0 ≤ i ∧ i < len ∧ ∃ b, data.read i = some b) ∧
      (len < 4 → new = []) := by
  by_cases h4 : len < 4
  · exact ⟨_, _, [], nsh_short cb batch packet data len s h4, (List.append_nil _).symm,
      Or.inl rfl, fun i hi => absurd hi (List.not_mem_nil i), fun _ => rfl⟩
  · have h4 := not_lt.mp h4
    obtain ⟨⟨b1, h1⟩, ⟨b3, h3⟩⟩ := read_of_valid hv h4
    have hin1 : ∀ i ∈ [(1 : Int)], 4 ≤ len ∧ 0 ≤ i ∧ i < len ∧ ∃ b, data.read i = some b := by
      intro i hi
      rw [List.mem_singleton] at hi
      subst hi
      exact ⟨h4, by norm_num, by omega, b1, h1⟩
    have hin13 : ∀ i ∈ [(1 : Int), 3],
        4 ≤ len ∧ 0 ≤ i ∧ i < len ∧ ∃ b, data.read i = some b := by
      intro i hi
      simp only [List.mem_cons, List.mem_singleton, List.not_mem_nil, or_false] at hi
      rcases hi with hi | hi <;> subst hi
      · exact ⟨h4, by norm_num, by omega, b1, h1⟩
      · exact ⟨h4, by norm_num, by omega, b3, h3⟩
    by_cases hl : len < nsh_length b1
    · exact ⟨_, _, [1], nsh_header_too_long cb batch packet data len s b1 h4 h1 hl, rfl,
        Or.inr (Or.inl rfl), hin1, fun h => absurd h (not_lt.mpr h4)⟩
    · have hl := not_lt.mp hl
      by_cases hc : b3.val ∈ [1, 2, 3, 4, 5]
      · obtain ⟨t, ht⟩ := specProtocolTag_of_mem hc
        exact ⟨_, _, [1, 3], nsh_accept cb batch packet data len s b1 b3 t h4 h1 hl h3 ht, rfl,
          Or.inr (Or.inr rfl), hin13, fun h => absurd h (not_lt.mpr h4)⟩
      · exact ⟨_, _, [1, 3], nsh_unknown_code cb batch packet data len s b1 b3 h4 h1 hl h3 hc,
          rfl, Or.inr (Or.inr rfl), hin13, fun h => absurd h (not_lt.mpr h4)⟩

/-- Witness for C15: a buffer that holds the 10 bytes declared; the run reads
indices 1 and 3.  A buffer of 2 bytes declared as 10 is outside of the
precondition, and there the embedding leaves the allocation. -/
theorem C15_reads_in_bounds_witness :
    (mkBuf 10 1 3).valid 10 ∧
      (∃ rc e new, nsh_packet_enqueue countingCb 7 9 (mkBuf 10 1 3) 10 env0 = some (rc, e) ∧
        e.reads = env0.reads ++ new ∧
        (new = [] ∨ new = [1] ∨ new = [1, 3]) ∧
        (∀ i ∈ new, (4 : Int) ≤ 10 ∧ 0 ≤ i ∧ i < 10 ∧ ∃ b, (mkBuf 10 1 3).read i = some b) ∧
        ((10 : Int) < 4 → new = [])) ∧
      (nsh_packet_enqueue countingCb 7 9 (mkBuf 10 1 3) 10 env0).map (fun r => r.2.reads)
        = some [1, 3] ∧
      ¬ (mkBuf 2 1 3).valid 10 ∧
      nsh_packet_enqueue countingCb 7 9 (mkBuf 2 1 3) 10 env0 = none :=
  ⟨by decide, C15_reads_in_bounds countingCb 7 9 (mkBuf 10 1 3) 10 env0 (by decide),
    by decide, by decide, by decide⟩

/-- C16: the header-length check is strict: for every input with `len ≥ 4`,
`(data[1] & 0x3f) * 4 = len` and byte 3 among `1..5`, the run does not reject
on its own; it calls the downstream routine once with a payload of length 0 at
offset `len` of the input. -/
theorem C16_header_fills_buffer (cb : Dispatcher B P σ) (batch : B) (packet : P)
    (data : BytePtr) (len : Int) (s : Env B P σ) (b1 b3 : uint8_t)
    (h4 : 4 ≤ len) (h1 : data.read 1 = some b1) (hl : nsh_length b1 = len)
    (h3 : data.read 3 = some b3) (hc : b3.val ∈ [1, 2, 3, 4, 5]) :
    ∃ c, DispatchedOnce cb s (nsh_packet_enqueue cb batch packet data len s) c ∧
      ¬ Rejected s (nsh_packet_enqueue cb batch packet data len s) ∧
      c.len = 0 ∧ c.data.mem = data.mem ∧ c.data.off = data.off + len := by
  obtain ⟨t, ht⟩ := specProtocolTag_of_mem hc
  have hd := nsh_accept_once cb batch packet data len s b1 b3 t h4 h1 (le_of_eq hl) h3 ht
  refine ⟨_, hd, not_rejected_of_dispatched hd, ?_, rfl, ?_⟩
  · show len - nsh_length b1 = 0
    omega
  · show data.off + nsh_length b1 = data.off + len
    rw [hl]

/-- Witness for C16: an 8 byte header in a buffer declared as 8 bytes. -/
theorem C16_header_fills_buffer_witness :
    ((4 : Int) ≤ 8 ∧ (mkBuf 8 2 1).read 1 = some 2 ∧ nsh_length 2 = 8 ∧
      (mkBuf 8 2 1).read 3 = some 1 ∧ (1 : uint8_t).val ∈ [1, 2, 3, 4, 5]) ∧
      (∃ c, DispatchedOnce countingCb env0
          (nsh_packet_enqueue countingCb 7 9 (mkBuf 8 2 1) 8 env0) c ∧
        ¬ Rejected env0 (nsh_packet_enqueue countingCb 7 9 (mkBuf 8 2 1) 8 env0) ∧
        c.len = 0 ∧ c.data.mem = (mkBuf 8 2 1).mem ∧ c.data.off = (mkBuf 8 2 1).off + 8) ∧
      nsh_packet_enqueue countingCb 7 9 (mkBuf 8 2 1) 8 env0
        = some (MolochPacketRC.other 0,
            { world := 1, reads := [1, 3],
              calls := [{ batch := 7, packet := 9,
                          data := { mem := (mkBuf 8 2 1).mem, off := 8 },
                          len := 0, type := EtherType.ETHERTYPE_IP, str := "NSH" }] }) :=
  ⟨⟨by decide, by decide, by decide, by decide, by decide⟩,
    C16_header_fills_buffer countingCb 7 9 (mkBuf 8 2 1) 8 env0 2 1
      (by decide) (by decide) (by decide) (by decide) (by decide),
    by decide⟩

end Claims

end Nsh
